import Mathlib

/-!
Verification of the host-side wasm-bindgen emulation layer of biscuit-wasm-go.

The Go sources are shallowly embedded here: guest linear memory is a total
function from byte addresses to byte values, the externref table mirror is a
Lean list of `JsVal` entries, and each host import stub or façade method
becomes an explicit Lean function on those states.  Go `uint32` arithmetic is
modelled on `Nat` with explicit `% 2^32` where the Go code can overflow.
Go panics are modelled by the `GoResult` wrapper.
-/

/-- Guest linear memory: byte address to byte value. -/
abbrev Mem := Nat → Nat

/-- Write the byte list `bs` into memory starting at address `ptr`
(the semantics of a successful wazero `mem.Write ptr bs`). -/
def writeBytes (mem : Mem) (ptr : Nat) (bs : List Nat) : Mem :=
  fun a => if ptr ≤ a ∧ a < ptr + bs.length then bs.getD (a - ptr) 0 else mem a

/-- Read `ln` bytes from memory starting at `ptr`
(the semantics of a successful wazero `mem.Read ptr ln`). -/
def readBytes (mem : Mem) (ptr ln : Nat) : List Nat :=
  (List.range ln).map (fun i => mem (ptr + i))

/-- Little-endian 4-byte encoding of a 32-bit value, as
`binary.LittleEndian.PutUint32` lays it out in guest memory. -/
def encodeLE32 (x : Nat) : List Nat :=
  [x % 256, x / 256 % 256, x / 256 ^ 2 % 256, x / 256 ^ 3 % 256]

/-- `binary.LittleEndian.Uint32` over a 4-byte buffer. -/
def decodeLE32 (bs : List Nat) : Nat :=
  bs.getD 0 0 + 256 * bs.getD 1 0 + 256 ^ 2 * bs.getD 2 0 + 256 ^ 3 * bs.getD 3 0

/-- A value held in the externref table mirror (`ExternrefTableMirror []any`):
Go `nil` is `undefined`, `JsNull{}` is `jsnull`, Go `bool`, Go `string`, and
the `map[string]any` synthetic objects (fields rendered to strings, as
`GetError` ultimately formats them).  Entries of other Go dynamic types
(e.g. `float64`, `[]any`) behave like these non-string non-map variants in
every operation verified here. -/
inductive JsVal where
  | undefined
  | jsnull
  | jsbool (b : Bool)
  | jsstr (s : String)
  | jsmap (fields : List (String × String))
deriving DecidableEq

/-- Outcome of Go code that may panic (unguarded slice index, explicit panic). -/
inductive GoResult (α : Type) where
  | ok (a : α)
  | panicked
deriving DecidableEq

/-- `__wbindgen_init_externref_table` (src/wasm/bootstrap.go): if the mirror is
empty, append one reserved `nil` entry; take `offset` = current length; append
four `nil` entries; then set `offset+0 .. offset+3` to
`nil, JsNull{}, true, false`. -/
def initExternrefTable (t : List JsVal) : List JsVal :=
  let t0 := if t.length = 0 then t ++ [JsVal.undefined] else t
  let off := t0.length
  let t1 := t0 ++ [JsVal.undefined, JsVal.undefined, JsVal.undefined, JsVal.undefined]
  let t2 := t1.set off JsVal.undefined
  let t3 := t2.set (off + 1) JsVal.jsnull
  let t4 := t3.set (off + 2) (JsVal.jsbool true)
  t4.set (off + 3) (JsVal.jsbool false)

/-- `__wbindgen_string_new` (src/wasm/bootstrap.go lines 257-277): a zero
length returns handle 0 without touching the table; a failed memory read
(`readRes = none`) returns handle 0; otherwise the table is seeded with the
reserved entry 0 if empty, the decoded string is appended, and the new entry's
index is returned.  The `mem.Read ptr ln` call is abstracted by `readRes`,
the decoded Go string (or `none` on read failure). -/
def stringNew (t : List JsVal) (ln : Nat) (readRes : Option String) : List JsVal × Nat :=
  if ln = 0 then (t, 0)
  else
    match readRes with
    | none => (t, 0)
    | some s =>
      let t0 := if t.length = 0 then t ++ [JsVal.undefined] else t
      (t0 ++ [JsVal.jsstr s], (t0 ++ [JsVal.jsstr s]).length - 1)

/-- Run a sequence of `__wbindgen_string_new` calls, returning the final table
and the list of handles returned, in call order. -/
def runInterns (t : List JsVal) (ops : List (Nat × Option String)) : List JsVal × List Nat :=
  match ops with
  | [] => (t, [])
  | (ln, r) :: rest =>
    let step := stringNew t ln r
    let rec' := runInterns step.1 rest
    (rec'.1, step.2 :: rec'.2)

/-- `__wbg_subarray_aa9065fa9dc5df96` (src/wasm/bootstrap.go lines 425-438):
`newHandle := base + begin` in `uint32` arithmetic, recorded length
`end - begin` when `end >= begin` and `0` otherwise; `taLen[newHandle]` is
updated and the new handle returned.  The `taLen` map is a total function
(absent keys read as the Go zero value 0). -/
def subarrayStub (taLen : Nat → Nat) (base start stop : Nat) : (Nat → Nat) × Nat :=
  let newHandle := (base + start) % 2 ^ 32
  let l := if stop ≥ start then stop - start else 0
  (fun h => if h = newHandle then l else taLen h, newHandle)

/-- One entry of `CompiledModule.ImportedFunctions()`: module namespace,
function name, and the `isImport` flag returned by `def.Import()`. -/
structure ImportDef where
  modName : String
  fnName : String
  imported : Bool
deriving DecidableEq

/-- The namespace-checking loop of `InstantiateImportStubs`
(src/wasm/bootstrap.go lines 41-62): entries whose `Import()` flag is false
are skipped; the first imported entry whose module namespace is neither
`__wbindgen_placeholder__` nor `__wbindgen_externref_xform__` aborts with an
error; otherwise the loop completes and the host modules are instantiated. -/
def instantiateImportStubs (defs : List ImportDef) : Except String Unit :=
  match defs with
  | [] => .ok ()
  | d :: rest =>
    if d.imported = false then instantiateImportStubs rest
    else if d.modName ≠ "__wbindgen_placeholder__" ∧ d.modName ≠ "__wbindgen_externref_xform__" then
      .error ("unsupported import module: " ++ d.modName ++ "." ++ d.fnName)
    else instantiateImportStubs rest

/-- `WasmEnv.GetError` (src/wasm/wasm.go lines 184-196): indexes
`ExternrefTableMirror[idx]` without a bound check, so any out-of-range index
panics; in range, a string entry yields its text, a map entry yields its
fields rendered as `"key: value"` concatenated, and any other variant yields
the `unknown error type` error. -/
def getError (t : List JsVal) (idx : Nat) : GoResult (Except String String) :=
  match t[idx]? with
  | none => .panicked
  | some (JsVal.jsstr s) => .ok (.ok s)
  | some (JsVal.jsmap fields) =>
    .ok (.ok (fields.foldl (fun acc kv => acc ++ kv.1 ++ ": " ++ kv.2) ""))
  | some _ => .ok (.error "unknown error type")

/-- The result-handling tail of `PrivateKey.FromString` (src/unnamed/part_004
lines 102-121), after the `(value_ptr, error_handle, is_err)` triple has been
decoded from the return area and the temporary guest allocations freed:
a nonzero flag resolves the error handle via `GetError` (a `GetError` failure
is wrapped, a panic propagates) and leaves `self.ptr` unchanged; a zero flag
stores `value_ptr` into `self.ptr`.  The returned pair is
(call outcome, the `ptr` field after the call). -/
def privateKey_fromString_finish (t : List JsVal) (selfPtr valuePtr errPtr isErr : Nat) :
    GoResult (Except String Unit × Nat) :=
  if isErr ≠ 0 then
    match getError t errPtr with
    | .panicked => .panicked
    | .ok (.error e) => .ok (.error ("cannot get error string: " ++ e), selfPtr)
    | .ok (.ok serr) => .ok (.error serr, selfPtr)
  else .ok (.ok (), valuePtr)

/-- `PrivateKey.ToString` (src/unnamed/part_004 lines 20-45) with the guest
interaction of the bound path (`GetFunction`, `Malloc`, the export call and
the result read) abstracted as one invocation of `guest`.  The second
component counts guest invocations made before returning. -/
def privateKey_toString_acc (ptr : Nat) (guest : Nat → Except String String) :
    Except String String × Nat :=
  if ptr = 0 then (.error "private key not initialized", 0)
  else (guest ptr, 1)

/-- `PublicKey.ToString` (src/crypto/keypair/public_key.go lines 20-31), same
shape: the Unbound guard first, the bound path abstracted as one guest
invocation. -/
def publicKey_toString_acc (ptr : Nat) (guest : Nat → Except String String) :
    Except String String × Nat :=
  if ptr = 0 then (.error "public key not initialized", 0)
  else (guest ptr, 1)

/-- `KeyPair.GetPublicKey` (src/unnamed/part_003 lines 46-69): the Unbound
guard first, then the guest call producing the new key's handle. -/
def keyPair_getPublicKey_acc (ptr : Nat) (guest : Nat → Except String Nat) :
    Except String Nat × Nat :=
  if ptr = 0 then (.error "keypair not initialized", 0)
  else (guest ptr, 1)

/-- `KeyPair.GetPrivateKey` (src/unnamed/part_003 lines 71-93), same shape. -/
def keyPair_getPrivateKey_acc (ptr : Nat) (guest : Nat → Except String Nat) :
    Except String Nat × Nat :=
  if ptr = 0 then (.error "keypair not initialized", 0)
  else (guest ptr, 1)

/-- `__wbg_randomFillSync_ac0988aba3254290` / `__wbg_getRandomValues_...`
(src/wasm/bootstrap.go lines 105-126): look up the recorded length of the
typed-array handle `arr` (which is itself the guest byte offset); length 0
returns immediately; otherwise a buffer of that length is filled with the
bytes the entropy source produced (`rnd = some r`, `crypto/rand.Read`
succeeded yielding `r`), the remainder zero-filled, and written at offset
`arr`; an entropy failure (`rnd = none`) writes nothing; an out-of-range
`mem.Write` writes nothing. -/
def randomFill (taLen : Nat → Nat) (mem : Mem) (memSize arr : Nat)
    (rnd : Option (List Nat)) : Mem :=
  let ln := taLen arr
  if ln = 0 then mem
  else
    match rnd with
    | none => mem
    | some r =>
      let buf := r.take ln ++ List.replicate (ln - (r.take ln).length) 0
      if arr + ln ≤ memSize then writeBytes mem arr buf else mem

/-- `WasmEnv.GetStringValueFromPointer` (src/wasm/wasm.go lines 156-182):
read the 8-byte return area at `ptr` (failure returns the
`cannot read return area` error), decode the little-endian `(strPtr, strLen)`
pair, read the string bytes (failure panics), then call the guest deallocator
on `(strPtr, strLen)` and yield the bytes.  The second component is the list
of `(ptr, size)` pairs passed to `env.Free`, in call order. -/
def getStringValueFromPointer (mem : Mem) (memSize ptr : Nat) :
    GoResult (Except String (List Nat) × List (Nat × Nat)) :=
  if ptr + 8 ≤ memSize then
    let buf := readBytes mem ptr 8
    let strPtr := decodeLE32 (buf.take 4)
    let strLen := decodeLE32 (buf.drop 4)
    if strPtr + strLen ≤ memSize then
      .ok (.ok (readBytes mem strPtr strLen), [(strPtr, strLen)])
    else .panicked
  else .ok (.error "cannot read return area", [])

/-- Modelled from the spec: the guest key-management library (the compiled
biscuit wasm module; its exports `privatekey_fromString` /
`privatekey_toString` are called by the host but their code is not under
src).  Per the spec, the from-string export parses the UTF-8 bytes passed as
`(ptr, len)` and either yields a key handle or signals failure through an
error handle, and the to-string export writes the key's serialization, whose
format is deterministic.  `parseKey`, `renderKey` and `errHandle` model those
three behaviors. -/
structure Guest where
  parseKey : List Nat → Option Nat
  renderKey : Nat → List Nat
  errHandle : Nat

/-- `PrivateKey.FromString` (src/unnamed/part_004 lines 47-121) at the byte
level: write the UTF-8 bytes of `data` at the allocated `strPtr` (a failed
write errors out), call the guest export — which reads the bytes back,
parses them and writes the little-endian `(value_ptr, error_handle, is_err)`
triple at the allocated `retPtr` (modelled from the spec's 3-word return
record) — then read the 16-byte return area, decode the three words, free
the temporaries and finish via `privateKey_fromString_finish`.  Returns
((call outcome, `ptr` field after the call), memory after the call). -/
def privateKey_fromString_run (g : Guest) (t : List JsVal) (mem : Mem)
    (memSize retPtr strPtr selfPtr : Nat) (data : List Nat) :
    GoResult ((Except String Unit × Nat) × Mem) :=
  if strPtr + data.length ≤ memSize then
    let mem1 := writeBytes mem strPtr data
    let bs := readBytes mem1 strPtr data.length
    let triple :=
      match g.parseKey bs with
      | some h => encodeLE32 (h % 2 ^ 32) ++ encodeLE32 0 ++ encodeLE32 0
      | none => encodeLE32 0 ++ encodeLE32 (g.errHandle % 2 ^ 32) ++ encodeLE32 1
    let mem2 := writeBytes mem1 retPtr triple
    if retPtr + 16 ≤ memSize then
      let buf := readBytes mem2 retPtr 16
      let valuePtr := decodeLE32 buf
      let errPtr := decodeLE32 (buf.drop 4)
      let isErr := decodeLE32 (buf.drop 8)
      match privateKey_fromString_finish t selfPtr valuePtr errPtr isErr with
      | .panicked => .panicked
      | .ok res => .ok (res, mem2)
    else .ok ((.error "cannot read return area", selfPtr), mem2)
  else .ok ((.error "cannot write string bytes to wasm memory", selfPtr), mem)

/-- `PrivateKey.ToString` (src/unnamed/part_004 lines 20-45) at the byte
level: the Unbound guard first; on the bound path the guest export writes the
serialization bytes at the guest-allocated `strDst` and the little-endian
`(strDst, length)` pair into the 8-byte return area at `outPtr` (modelled
from the spec's 2-word return record), and the host decodes the result via
`GetStringValueFromPointer`. -/
def privateKey_toString_run (g : Guest) (mem : Mem) (memSize outPtr strDst selfPtr : Nat) :
    GoResult (Except String (List Nat) × Mem) :=
  if selfPtr = 0 then .ok (.error "private key not initialized", mem)
  else
    let bs := g.renderKey selfPtr
    let mem1 := writeBytes mem strDst bs
    let mem2 := writeBytes mem1 outPtr (encodeLE32 (strDst % 2 ^ 32) ++ encodeLE32 (bs.length % 2 ^ 32))
    match getStringValueFromPointer mem2 memSize outPtr with
    | .panicked => .panicked
    | .ok (res, _) => .ok (res, mem2)

/-- `FromString` on an Unbound key followed by `ToString`, threading the
memory and the resulting `ptr` field, as `main` exercises them
(src/bootstrap.go second part, lines 120-131). -/
def privateKey_roundTrip (g : Guest) (t : List JsVal) (mem : Mem)
    (memSize retPtr strPtr outPtr strDst : Nat) (data : List Nat) :
    GoResult (Except String (List Nat)) :=
  match privateKey_fromString_run g t mem memSize retPtr strPtr 0 data with
  | .panicked => .panicked
  | .ok (res, mem1) =>
    match res.1 with
    | .error e => .ok (.error e)
    | .ok _ =>
      match privateKey_toString_run g mem1 memSize outPtr strDst res.2 with
      | .panicked => .panicked
      | .ok (r, _) => .ok r

theorem stringNew_appends (t : List JsVal) (ln : Nat) (r : Option String) :
    ∃ ext, (stringNew t ln r).1 = t ++ ext := by
  unfold stringNew
  by_cases h : ln = 0
  · exact ⟨[], by simp [h]⟩
  · cases r with
    | none => exact ⟨[], by simp [h]⟩
    | some s =>
      by_cases ht : t.length = 0
      · exact ⟨[JsVal.undefined, JsVal.jsstr s], by simp [h, ht]⟩
      · exact ⟨[JsVal.jsstr s], by simp [h, ht]⟩

theorem runInterns_appends (ops : List (Nat × Option String)) (t : List JsVal) :
    ∃ ext, (runInterns t ops).1 = t ++ ext := by
  induction ops generalizing t with
  | nil => exact ⟨[], by simp [runInterns]⟩
  | cons op rest ih =>
    obtain ⟨e1, he1⟩ := stringNew_appends t op.1 op.2
    obtain ⟨e2, he2⟩ := ih (stringNew t op.1 op.2).1
    refine ⟨e1 ++ e2, ?_⟩
    simp only [runInterns]
    rw [he2, he1, List.append_assoc]

theorem readBytes_length (mem : Mem) (p n : Nat) : (readBytes mem p n).length = n := by
  simp [readBytes]

theorem writeBytes_outside (mem : Mem) (p : Nat) (bs : List Nat) (a : Nat)
    (h : a < p ∨ p + bs.length ≤ a) : writeBytes mem p bs a = mem a := by
  unfold writeBytes
  rw [if_neg]
  omega

theorem writeBytes_inside (mem : Mem) (p : Nat) (bs : List Nat) (i : Nat)
    (h : i < bs.length) : writeBytes mem p bs (p + i) = bs.getD i 0 := by
  unfold writeBytes
  rw [if_pos ⟨Nat.le_add_right _ _, by omega⟩]
  simp

theorem readBytes_writeBytes_self (mem : Mem) (p : Nat) (bs : List Nat) :
    readBytes (writeBytes mem p bs) p bs.length = bs := by
  apply List.ext_getElem
  · simp [readBytes]
  · intro i h1 h2
    simp only [readBytes, List.getElem_map, List.getElem_range]
    rw [writeBytes_inside mem p bs i h2]
    exact List.getD_eq_getElem bs 0 h2

theorem readBytes_writeBytes_disjoint (mem : Mem) (p q n : Nat) (bs : List Nat)
    (h : q + n ≤ p ∨ p + bs.length ≤ q) :
    readBytes (writeBytes mem p bs) q n = readBytes mem q n := by
  apply List.ext_getElem
  · simp [readBytes]
  · intro i h1 h2
    rw [readBytes_length] at h1
    simp only [readBytes, List.getElem_map, List.getElem_range]
    rw [writeBytes_outside]
    omega

theorem decodeLE32_encode_append (x : Nat) (ys : List Nat) :
    decodeLE32 (encodeLE32 x ++ ys) = x % 2 ^ 32 := by
  norm_num [encodeLE32, decodeLE32]
  omega

theorem encode_append_drop4 (x : Nat) (ys : List Nat) :
    (encodeLE32 x ++ ys).drop 4 = ys := by
  simp [encodeLE32]

theorem encode_append_take4 (x : Nat) (ys : List Nat) :
    (encodeLE32 x ++ ys).take 4 = encodeLE32 x := by
  simp [encodeLE32]

theorem decodeLE32_encode (x : Nat) : decodeLE32 (encodeLE32 x) = x % 2 ^ 32 := by
  norm_num [encodeLE32, decodeLE32]
  omega

/-- C5: for all uint32 inputs, the subarray stub returns handle
`base + begin` (uint32 arithmetic) and records length `max 0 (end - begin)`
for that handle, leaving other handles' records unchanged. -/
theorem c5_subarray_handle_length (taLen : Nat → Nat) (base start stop : Nat)
    (hb : base < 2 ^ 32) (hs : start < 2 ^ 32) (he : stop < 2 ^ 32) :
    (subarrayStub taLen base start stop).2 = (base + start) % 2 ^ 32 ∧
    (base + start < 2 ^ 32 → (subarrayStub taLen base start stop).2 = base + start) ∧
    ((subarrayStub taLen base start stop).1 (subarrayStub taLen base start stop).2 : Int)
      = max 0 ((stop : Int) - (start : Int)) ∧
    (∀ h, h ≠ (subarrayStub taLen base start stop).2 →
      (subarrayStub taLen base start stop).1 h = taLen h) := by
  refine ⟨rfl, fun h => by simp only [subarrayStub]; omega, ?_, ?_⟩
  · simp only [subarrayStub, if_pos rfl]
    by_cases h : start ≤ stop
    · rw [if_pos h]
      push_cast
      omega
    · rw [if_neg h]
      push_cast
      omega
  · intro h hne
    simp only [subarrayStub] at hne ⊢
    rw [if_neg hne]

/-- C5 witness: the spec's concrete instances. -/
theorem c5_witness :
    (subarrayStub (fun _ => 0) 100 10 30).2 = 110 ∧
    (subarrayStub (fun _ => 0) 100 10 30).1 110 = 20 ∧
    (subarrayStub (fun _ => 0) 100 30 10).1 130 = 0 := by
  have h1 := c5_subarray_handle_length (fun _ => 0) 100 10 30
    (by norm_num) (by norm_num) (by norm_num)
  have h2 := c5_subarray_handle_length (fun _ => 0) 100 30 10
    (by norm_num) (by norm_num) (by norm_num)
  refine ⟨h1.2.1 (by norm_num), ?_, ?_⟩
  · have := h1.2.2.1
    rw [h1.1] at this
    norm_num at this
    exact_mod_cast this
  · have := h2.2.2.1
    rw [h2.1] at this
    norm_num at this
    exact_mod_cast this

/-- C8: the stub builder aborts with an error whenever some imported function
names a module namespace other than the two supported ones, and for import
lists confined to those two namespaces it never fails on namespace grounds. -/
theorem c8_namespace_check (defs : List ImportDef) :
    ((∃ d ∈ defs, d.imported = true ∧ d.modName ≠ "__wbindgen_placeholder__" ∧
        d.modName ≠ "__wbindgen_externref_xform__") →
      ∃ msg, instantiateImportStubs defs = .error msg) ∧
    ((∀ d ∈ defs, d.imported = true →
        d.modName = "__wbindgen_placeholder__" ∨ d.modName = "__wbindgen_externref_xform__") →
      instantiateImportStubs defs = .ok ()) := by
  induction defs with
  | nil => simp [instantiateImportStubs]
  | cons d rest ih =>
    constructor
    · rintro ⟨d', hmem, himp, hns⟩
      unfold instantiateImportStubs
      rcases List.mem_cons.mp hmem with heq | hmem'
      · subst heq
        rw [himp]
        simp only [Bool.true_eq_false, if_false, if_pos hns]
        exact ⟨_, rfl⟩
      · by_cases hdi : d.imported = false
        · rw [if_pos hdi]
          exact ih.1 ⟨d', hmem', himp, hns⟩
        · rw [if_neg hdi]
          by_cases hbad : d.modName ≠ "__wbindgen_placeholder__" ∧
              d.modName ≠ "__wbindgen_externref_xform__"
          · rw [if_pos hbad]
            exact ⟨_, rfl⟩
          · rw [if_neg hbad]
            exact ih.1 ⟨d', hmem', himp, hns⟩
    · intro hall
      unfold instantiateImportStubs
      by_cases hdi : d.imported = false
      · rw [if_pos hdi]
        exact ih.2 (fun x hx => hall x (List.mem_cons_of_mem d hx))
      · rw [if_neg hdi]
        have hok := hall d (List.mem_cons_self d rest) (by revert hdi; cases d.imported <;> simp)
        rw [if_neg (by tauto)]
        exact ih.2 (fun x hx => hall x (List.mem_cons_of_mem d hx))

/-- C8 witness: a DOM-style import aborts binding; the two supported
namespaces do not. -/
theorem c8_witness :
    (∃ msg, instantiateImportStubs
      [⟨"__wbindgen_placeholder__", "__wbindgen_string_new", true⟩,
       ⟨"wbg", "__wbg_document_d249400bd7bd996d", true⟩] = .error msg) ∧
    instantiateImportStubs
      [⟨"__wbindgen_placeholder__", "__wbindgen_string_new", true⟩,
       ⟨"__wbindgen_externref_xform__", "__wbindgen_externref_table_grow", true⟩] = .ok () := by
  constructor
  · exact (c8_namespace_check _).1 ⟨⟨"wbg", "__wbg_document_d249400bd7bd996d", true⟩,
      by simp, rfl, by decide, by decide⟩
  · refine (c8_namespace_check _).2 ?_
    intro d hd _
    simp only [List.mem_cons, List.not_mem_nil, or_false] at hd
    rcases hd with h | h <;> subst h <;> simp

/-- C10: `GetError` panics exactly on indices at or beyond the mirror's
length (unguarded slice indexing), and returns normally exactly on smaller
indices — an out-of-range error handle crashes the host instead of
producing the `unknown error type` failure. -/
theorem c10_getError_panics (t : List JsVal) (idx : Nat) :
    (getError t idx = GoResult.panicked ↔ t.length ≤ idx) ∧
    (getError t idx ≠ GoResult.panicked ↔ idx < t.length) := by
  have key : getError t idx = GoResult.panicked ↔ t.length ≤ idx := by
    unfold getError
    rcases h : t[idx]? with _ | v
    · rw [List.getElem?_eq_none_iff] at h
      simp [h]
    · have hlt : idx < t.length := by
        by_contra hc
        rw [List.getElem?_eq_none_iff.mpr (by omega)] at h
        exact Option.noConfusion h
      cases v <;> simp [hlt]
  exact ⟨key, by rw [ne_eq, key]; omega⟩

/-- C4: every accessor invoked on an Unbound object (ptr field 0) returns an
error carrying the "not initialized" condition (each message ends with the
shared condition text) and performs zero guest invocations before
returning. -/
theorem c4_unbound_accessors (gs gp : Nat → Except String String)
    (gq gr : Nat → Except String Nat) :
    privateKey_toString_acc 0 gs = (.error "private key not initialized", 0) ∧
    publicKey_toString_acc 0 gp = (.error "public key not initialized", 0) ∧
    keyPair_getPublicKey_acc 0 gq = (.error "keypair not initialized", 0) ∧
    keyPair_getPrivateKey_acc 0 gr = (.error "keypair not initialized", 0) ∧
    "private key not initialized" = "private key " ++ "not initialized" ∧
    "public key not initialized" = "public key " ++ "not initialized" ∧
    "keypair not initialized" = "keypair " ++ "not initialized" := by
  exact ⟨rfl, rfl, rfl, rfl, rfl, rfl, rfl⟩

/-- C2 counterexample: after initialization of an empty mirror, handle 1
resolves to Undefined, not Null — the seeded `[undefined, null, true, false]`
block starts at index 1, so Null/True/False live at 2/3/4. -/
theorem c2_counterexample :
    (initExternrefTable [])[1]? = some JsVal.undefined ∧
    JsVal.undefined ≠ JsVal.jsnull ∧
    (initExternrefTable [])[2]? = some JsVal.jsnull := by decide

/-- C2 (amended): after initialization of an empty mirror, handle 0 resolves
to Undefined, handle 1 also to Undefined (the reserved slot plus the first
seeded slot), and handles 2, 3, 4 resolve to Null, True, False; these five
entries remain at indices 0-4 with those values after any later sequence of
intern (string-new) operations. -/
theorem c2_sentinels_preserved (ops : List (Nat × Option String)) :
    (runInterns (initExternrefTable []) ops).1[0]? = some JsVal.undefined ∧
    (runInterns (initExternrefTable []) ops).1[1]? = some JsVal.undefined ∧
    (runInterns (initExternrefTable []) ops).1[2]? = some JsVal.jsnull ∧
    (runInterns (initExternrefTable []) ops).1[3]? = some (JsVal.jsbool true) ∧
    (runInterns (initExternrefTable []) ops).1[4]? = some (JsVal.jsbool false) := by
  obtain ⟨ext, hext⟩ := runInterns_appends ops (initExternrefTable [])
  rw [hext]
  have hinit : initExternrefTable [] =
      [JsVal.undefined, JsVal.undefined, JsVal.jsnull, JsVal.jsbool true, JsVal.jsbool false] := by
    decide
  rw [hinit]
  simp

/-- C6 counterexample: interning a nonempty string then the empty string
returns handles 1 then 0 — the second call's handle is not strictly greater
than the first's, refuting strict monotonicity of returned handles. -/
theorem c6_counterexample :
    (runInterns [] [(1, some "a"), (0, none)]).2 = [1, 0] ∧ ¬ (0 : Nat) > 1 := by
  refine ⟨?_, by omega⟩
  decide

theorem stringNew_handle_cases (t : List JsVal) (ln : Nat) (r : Option String) :
    stringNew t ln r = (t, 0) ∨
    ((stringNew t ln r).2 ≠ 0 ∧ t.length ≤ (stringNew t ln r).2 ∧
      (stringNew t ln r).1.length = (stringNew t ln r).2 + 1) := by
  unfold stringNew
  by_cases h : ln = 0
  · left
    simp [h]
  · cases r with
    | none => left; simp [h]
    | some s =>
      right
      by_cases ht : t.length = 0 <;> simp [h, ht]

theorem runInterns_handle_lb (ops : List (Nat × Option String)) (t : List JsVal) :
    (∀ h ∈ (runInterns t ops).2, h ≠ 0 → t.length ≤ h) ∧
    t.length ≤ (runInterns t ops).1.length := by
  induction ops generalizing t with
  | nil => simp [runInterns]
  | cons op rest ih =>
    simp only [runInterns]
    rcases stringNew_handle_cases t op.1 op.2 with hc | ⟨h0, hlb, hlen⟩
    · rw [hc]
      constructor
      · intro h hmem hne
        rcases List.mem_cons.mp hmem with heq | hmem'
        · subst heq
          exact absurd rfl hne
        · exact (ih t).1 h hmem' hne
      · exact (ih t).2
    · constructor
      · intro h hmem hne
        rcases List.mem_cons.mp hmem with heq | hmem'
        · subst heq
          exact hlb
        · have := (ih (stringNew t op.1 op.2).1).1 h hmem' hne
          omega
      · have := (ih (stringNew t op.1 op.2).1).2
        omega

theorem runInterns_handles_sorted (ops : List (Nat × Option String)) (t : List JsVal) :
    ((runInterns t ops).2.filter (fun h => h != 0)).Pairwise (· < ·) := by
  induction ops generalizing t with
  | nil => simp [runInterns]
  | cons op rest ih =>
    simp only [runInterns]
    rcases stringNew_handle_cases t op.1 op.2 with hc | ⟨h0, hlb, hlen⟩
    · rw [hc]
      simp only [List.filter_cons]
      norm_num
      exact ih t
    · have hcond : ((stringNew t op.1 op.2).2 != 0) = true := by simpa using h0
      simp only [List.filter_cons, hcond, if_true]
      rw [List.pairwise_cons]
      refine ⟨?_, ih _⟩
      intro b hb
      have hmem : b ∈ (runInterns (stringNew t op.1 op.2).1 rest).2 := List.mem_of_mem_filter hb
      have hbne : b ≠ 0 := by
        have := List.of_mem_filter hb
        simpa using this
      have := (runInterns_handle_lb rest (stringNew t op.1 op.2).1).1 b hmem hbne
      omega

/-- C6 (amended): every string-new call is append-only — the prior table is a
prefix of the new one, so entries are never removed and the size never
decreases — and the handles of the calls that actually store a new entry
(nonzero handles; empty-string and failed-read calls return the sentinel 0
and leave the table untouched) are strictly increasing across any call
sequence. -/
theorem c6_intern_append_only (t : List JsVal) (ops : List (Nat × Option String)) :
    (∀ ln r, t <+: (stringNew t ln r).1) ∧
    t <+: (runInterns t ops).1 ∧
    ((runInterns t ops).2.filter (fun h => h != 0)).Pairwise (· < ·) := by
  refine ⟨?_, ?_, runInterns_handles_sorted ops t⟩
  · intro ln r
    obtain ⟨ext, hext⟩ := stringNew_appends t ln r
    exact ⟨ext, hext.symm⟩
  · obtain ⟨ext, hext⟩ := runInterns_appends ops t
    exact ⟨ext, hext.symm⟩

/-- C3: when the 3-word return record's is-error flag is nonzero,
`FromString` resolves the error handle through the table mirror (string or
field-map entry), surfaces a failure whose message equals the guest-provided
text, and leaves the `ptr` field unchanged (Unbound stays Unbound); the
handle is stored only when the flag is zero. -/
theorem c3_fromString_error_path (t : List JsVal) (selfPtr valuePtr errPtr isErr : Nat) :
    (∀ msg, isErr ≠ 0 → t[errPtr]? = some (JsVal.jsstr msg) →
      privateKey_fromString_finish t selfPtr valuePtr errPtr isErr
        = .ok (.error msg, selfPtr)) ∧
    (∀ fields, isErr ≠ 0 → t[errPtr]? = some (JsVal.jsmap fields) →
      privateKey_fromString_finish t selfPtr valuePtr errPtr isErr
        = .ok (.error (fields.foldl (fun acc kv => acc ++ kv.1 ++ ": " ++ kv.2) ""), selfPtr)) ∧
    (isErr = 0 →
      privateKey_fromString_finish t selfPtr valuePtr errPtr isErr = .ok (.ok (), valuePtr)) := by
  refine ⟨?_, ?_, ?_⟩
  · intro msg hne hentry
    unfold privateKey_fromString_finish getError
    rw [if_pos hne, hentry]
  · intro fields hne hentry
    unfold privateKey_fromString_finish getError
    rw [if_pos hne, hentry]
  · intro hz
    unfold privateKey_fromString_finish
    subst hz
    rw [if_neg (by omega)]

/-- C3 witness: a guest error interned at handle 1 with text "invalid key"
surfaces verbatim and keeps the key Unbound; a zero flag binds the handle. -/
theorem c3_witness :
    privateKey_fromString_finish [JsVal.undefined, JsVal.jsstr "invalid key"] 0 0 1 1
      = .ok (.error "invalid key", 0) ∧
    privateKey_fromString_finish [JsVal.undefined, JsVal.jsstr "invalid key"] 0 42 1 0
      = .ok (.ok (), 42) := by
  constructor
  · exact (c3_fromString_error_path [JsVal.undefined, JsVal.jsstr "invalid key"] 0 0 1 1).1
      "invalid key" (by omega) (by decide)
  · exact (c3_fromString_error_path [JsVal.undefined, JsVal.jsstr "invalid key"] 0 42 1 0).2.2
      rfl

theorem padded_getD (r : List Nat) (ln i : Nat) (hi : i < ln) :
    (r.take ln ++ List.replicate (ln - (r.take ln).length) 0).getD i 0
      = if i < r.length then r.getD i 0 else 0 := by
  by_cases hlen : i < (r.take ln).length
  · rw [List.getD_append _ _ _ _ hlen]
    have hr : i < r.length := by
      rw [List.length_take] at hlen
      omega
    rw [if_pos hr]
    rw [List.getD_eq_getElem _ _ hlen, List.getD_eq_getElem _ _ hr]
    exact List.getElem_take ..
  · have hr : ¬ i < r.length := by
      rw [List.length_take] at hlen
      omega
    rw [if_neg hr]
    rw [List.getD_append_right _ _ _ _ (by omega)]
    rcases Nat.lt_or_ge (i - (r.take ln).length) (ln - (r.take ln).length) with hlt | hge
    · rw [List.getD_eq_getElem _ _ (by simpa using hlt)]
      exact List.getElem_replicate ..
    · rw [List.getD_eq_default]
      simpa using hge

/-- C1: for the recorded length L of the typed-array handle, the random-fill
stub is a no-op when L = 0; when the entropy read succeeds it writes exactly
L bytes at guest offset `arr` — the bytes the source produced, with the
remainder zero-filled when the source yielded fewer than L; and for any
entropy outcome it never touches memory outside `[arr, arr + L)`. -/
theorem c1_randomFill (taLen : Nat → Nat) (mem : Mem) (memSize arr : Nat) (r : List Nat)
    (hbound : arr + taLen arr ≤ memSize) :
    (taLen arr = 0 → randomFill taLen mem memSize arr (some r) = mem) ∧
    (∀ i, i < taLen arr →
      randomFill taLen mem memSize arr (some r) (arr + i)
        = if i < r.length then r.getD i 0 else 0) ∧
    (∀ rnd a, a < arr ∨ arr + taLen arr ≤ a →
      randomFill taLen mem memSize arr rnd a = mem a) := by
  refine ⟨?_, ?_, ?_⟩
  · intro hz
    simp only [randomFill]
    rw [if_pos hz]
  · intro i hi
    simp only [randomFill]
    rw [if_neg (show ¬ taLen arr = 0 by omega), if_pos hbound]
    have hlen : (r.take (taLen arr) ++
        List.replicate (taLen arr - (r.take (taLen arr)).length) 0).length = taLen arr := by
      simp only [List.length_append, List.length_take, List.length_replicate]
      omega
    rw [writeBytes_inside _ _ _ _ (by omega)]
    exact padded_getD r (taLen arr) i hi
  · intro rnd a ha
    by_cases hz : taLen arr = 0
    · simp only [randomFill]
      rw [if_pos hz]
    · cases rnd with
      | none =>
        simp only [randomFill]
        rw [if_neg hz]
      | some r2 =>
        simp only [randomFill]
        rw [if_neg hz]
        by_cases hb : arr + taLen arr ≤ memSize
        · rw [if_pos hb]
          apply writeBytes_outside
          have : (r2.take (taLen arr) ++
              List.replicate (taLen arr - (r2.take (taLen arr)).length) 0).length
                = taLen arr := by
            simp only [List.length_append, List.length_take, List.length_replicate]
            omega
          omega
        · rw [if_neg hb]

/-- C1 witness: a 3-byte typed array at offset 10, entropy yielding a single
byte 5 — positions 10..12 become 5, 0, 0, position 13 is untouched, and a
zero-length handle leaves memory unchanged. -/
theorem c1_witness :
    randomFill (fun a => if a = 10 then 3 else 0) (fun _ => 7) 100 10 (some [5]) 10 = 5 ∧
    randomFill (fun a => if a = 10 then 3 else 0) (fun _ => 7) 100 10 (some [5]) 11 = 0 ∧
    randomFill (fun a => if a = 10 then 3 else 0) (fun _ => 7) 100 10 (some [5]) 12 = 0 ∧
    randomFill (fun a => if a = 10 then 3 else 0) (fun _ => 7) 100 10 (some [5]) 13 = 7 ∧
    randomFill (fun a => if a = 10 then 3 else 0) (fun _ => 7) 100 20 (some [5]) = (fun _ => 7) := by
  have h := c1_randomFill (fun a => if a = 10 then 3 else 0) (fun _ => 7) 100 10 [5]
    (by norm_num)
  have h2 := c1_randomFill (fun a => if a = 10 then 3 else 0) (fun _ => 7) 100 20 [5]
    (by norm_num)
  refine ⟨?_, ?_, ?_, ?_, h2.1 (by norm_num)⟩
  · have := h.2.1 0 (by norm_num)
    simpa using this
  · have := h.2.1 1 (by norm_num)
    simpa using this
  · have := h.2.1 2 (by norm_num)
    simpa using this
  · have := h.2.2 (some [5]) 13 (by norm_num)
    simpa using this

theorem readBytes_append (mem : Mem) (p a b : Nat) :
    readBytes mem p (a + b) = readBytes mem p a ++ readBytes mem (p + a) b := by
  unfold readBytes
  rw [List.range_add, List.map_append, List.map_map]
  congr 1
  apply List.map_congr_left
  intro i _
  simp [Nat.add_assoc]

theorem encode_append_drop8 (x : Nat) (ys : List Nat) :
    (encodeLE32 x ++ ys).drop 8 = ys.drop 4 := by
  simp [encodeLE32]

theorem decode_triple_0 (a b c : Nat) (ys : List Nat) :
    decodeLE32 ((encodeLE32 a ++ encodeLE32 b ++ encodeLE32 c) ++ ys) = a % 2 ^ 32 := by
  rw [List.append_assoc, List.append_assoc, decodeLE32_encode_append]

theorem decode_triple_1 (a b c : Nat) (ys : List Nat) :
    decodeLE32 (((encodeLE32 a ++ encodeLE32 b ++ encodeLE32 c) ++ ys).drop 4) = b % 2 ^ 32 := by
  rw [List.append_assoc, List.append_assoc, encode_append_drop4, decodeLE32_encode_append]

theorem decode_triple_2 (a b c : Nat) (ys : List Nat) :
    decodeLE32 (((encodeLE32 a ++ encodeLE32 b ++ encodeLE32 c) ++ ys).drop 8) = c % 2 ^ 32 := by
  rw [List.append_assoc, List.append_assoc, encode_append_drop8, encode_append_drop4,
    decodeLE32_encode_append]

theorem fromString_run_success (g : Guest) (t : List JsVal) (mem : Mem)
    (memSize retPtr strPtr selfPtr h : Nat) (data : List Nat)
    (hparse : g.parseKey data = some h) (hh32 : h < 2 ^ 32)
    (hstr : strPtr + data.length ≤ memSize) (hret : retPtr + 16 ≤ memSize) :
    privateKey_fromString_run g t mem memSize retPtr strPtr selfPtr data
      = .ok ((.ok (), h),
          writeBytes (writeBytes mem strPtr data) retPtr
            (encodeLE32 h ++ encodeLE32 0 ++ encodeLE32 0)) := by
  have hmod : h % 2 ^ 32 = h := Nat.mod_eq_of_lt hh32
  simp only [privateKey_fromString_run, if_pos hstr, readBytes_writeBytes_self, hparse, hmod,
    if_pos hret]
  have htl : (encodeLE32 h ++ encodeLE32 0 ++ encodeLE32 0).length = 12 := by
    simp [encodeLE32]
  have h12 : readBytes (writeBytes (writeBytes mem strPtr data) retPtr
        (encodeLE32 h ++ encodeLE32 0 ++ encodeLE32 0)) retPtr 12
      = encodeLE32 h ++ encodeLE32 0 ++ encodeLE32 0 := by
    have := readBytes_writeBytes_self (writeBytes mem strPtr data) retPtr
      (encodeLE32 h ++ encodeLE32 0 ++ encodeLE32 0)
    rwa [htl] at this
  have hsplit : readBytes (writeBytes (writeBytes mem strPtr data) retPtr
        (encodeLE32 h ++ encodeLE32 0 ++ encodeLE32 0)) retPtr 16
      = (encodeLE32 h ++ encodeLE32 0 ++ encodeLE32 0) ++
          readBytes (writeBytes (writeBytes mem strPtr data) retPtr
            (encodeLE32 h ++ encodeLE32 0 ++ encodeLE32 0)) (retPtr + 12) 4 := by
    have hr := readBytes_append (writeBytes (writeBytes mem strPtr data) retPtr
        (encodeLE32 h ++ encodeLE32 0 ++ encodeLE32 0)) retPtr 12 4
    rw [(by norm_num : (12 + 4 : Nat) = 16)] at hr
    rw [hr, h12]
  rw [hsplit, decode_triple_0, decode_triple_1, decode_triple_2, hmod]
  norm_num [privateKey_fromString_finish]

theorem toString_run_success (g : Guest) (mem : Mem) (memSize outPtr strDst selfPtr : Nat)
    (hne : selfPtr ≠ 0) (hdst32 : strDst < 2 ^ 32)
    (hlen32 : (g.renderKey selfPtr).length < 2 ^ 32)
    (hout : outPtr + 8 ≤ memSize)
    (hdstsz : strDst + (g.renderKey selfPtr).length ≤ memSize)
    (hdisj : strDst + (g.renderKey selfPtr).length ≤ outPtr ∨ outPtr + 8 ≤ strDst) :
    privateKey_toString_run g mem memSize outPtr strDst selfPtr
      = .ok (.ok (g.renderKey selfPtr),
          writeBytes (writeBytes mem strDst (g.renderKey selfPtr)) outPtr
            (encodeLE32 (strDst % 2 ^ 32) ++ encodeLE32 ((g.renderKey selfPtr).length % 2 ^ 32))) := by
  have hpwlen : (encodeLE32 (strDst % 2 ^ 32) ++
      encodeLE32 ((g.renderKey selfPtr).length % 2 ^ 32)).length = 8 := by
    simp [encodeLE32]
  have hbuf : readBytes (writeBytes (writeBytes mem strDst (g.renderKey selfPtr)) outPtr
        (encodeLE32 (strDst % 2 ^ 32) ++ encodeLE32 ((g.renderKey selfPtr).length % 2 ^ 32)))
        outPtr 8
      = encodeLE32 (strDst % 2 ^ 32) ++ encodeLE32 ((g.renderKey selfPtr).length % 2 ^ 32) := by
    have := readBytes_writeBytes_self (writeBytes mem strDst (g.renderKey selfPtr)) outPtr
      (encodeLE32 (strDst % 2 ^ 32) ++ encodeLE32 ((g.renderKey selfPtr).length % 2 ^ 32))
    rwa [hpwlen] at this
  have htake : decodeLE32 ((encodeLE32 (strDst % 2 ^ 32) ++
      encodeLE32 ((g.renderKey selfPtr).length % 2 ^ 32)).take 4) = strDst := by
    rw [encode_append_take4, decodeLE32_encode]
    omega
  have hdrop : decodeLE32 ((encodeLE32 (strDst % 2 ^ 32) ++
      encodeLE32 ((g.renderKey selfPtr).length % 2 ^ 32)).drop 4)
      = (g.renderKey selfPtr).length := by
    rw [encode_append_drop4, decodeLE32_encode]
    omega
  have hread : readBytes (writeBytes (writeBytes mem strDst (g.renderKey selfPtr)) outPtr
        (encodeLE32 (strDst % 2 ^ 32) ++ encodeLE32 ((g.renderKey selfPtr).length % 2 ^ 32)))
        strDst (g.renderKey selfPtr).length
      = g.renderKey selfPtr := by
    rw [readBytes_writeBytes_disjoint _ _ _ _ _ (by rw [hpwlen]; tauto)]
    exact readBytes_writeBytes_self mem strDst (g.renderKey selfPtr)
  simp only [privateKey_toString_run, if_neg hne, getStringValueFromPointer, if_pos hout,
    hbuf, htake, hdrop, if_pos hdstsz, hread]

/-- C7: for a private-key string exported by the guest library (its bytes
parse to a nonzero handle whose deterministic serialization is those same
bytes), `FromString` on an Unbound key followed by `ToString` returns exactly
the original bytes, for any disjoint allocation of the string buffer, the
two return areas and the serialization buffer inside guest memory. -/
theorem c7_roundTrip_identity (g : Guest) (t : List JsVal) (mem : Mem)
    (memSize retPtr strPtr outPtr strDst h : Nat) (data : List Nat)
    (hparse : g.parseKey data = some h)
    (hrender : g.renderKey h = data)
    (hh0 : h ≠ 0) (hh32 : h < 2 ^ 32)
    (hdst32 : strDst < 2 ^ 32) (hlen32 : data.length < 2 ^ 32)
    (hstr : strPtr + data.length ≤ memSize)
    (hret : retPtr + 16 ≤ memSize)
    (hout : outPtr + 8 ≤ memSize)
    (hdstsz : strDst + data.length ≤ memSize)
    (hdisj : strDst + data.length ≤ outPtr ∨ outPtr + 8 ≤ strDst) :
    privateKey_roundTrip g t mem memSize retPtr strPtr outPtr strDst data
      = .ok (.ok data) := by
  have hts := toString_run_success g
    (writeBytes (writeBytes mem strPtr data) retPtr
      (encodeLE32 h ++ encodeLE32 0 ++ encodeLE32 0))
    memSize outPtr strDst h hh0 hdst32
    (by rw [hrender]; exact hlen32) hout
    (by rw [hrender]; exact hdstsz)
    (by rw [hrender]; exact hdisj)
  rw [hrender] at hts
  unfold privateKey_roundTrip
  rw [fromString_run_success g t mem memSize retPtr strPtr 0 h data hparse hh32 hstr hret]
  simp only
  rw [hts]

/-- C7 witness: a one-byte key string `[7]` with guest handle 5 round-trips
through concrete disjoint buffers. -/
theorem c7_witness :
    privateKey_roundTrip
      ⟨fun bs => if bs = [7] then some 5 else none,
       fun hh => if hh = 5 then [7] else [], 0⟩
      [] (fun _ => 0) 400 0 100 200 300 [7] = .ok (.ok [7]) := by
  exact c7_roundTrip_identity
    ⟨fun bs => if bs = [7] then some 5 else none, fun hh => if hh = 5 then [7] else [], 0⟩
    [] (fun _ => 0) 400 0 100 200 300 5 [7]
    (by decide) (by decide) (by decide) (by norm_num) (by norm_num) (by norm_num)
    (by norm_num) (by norm_num) (by norm_num) (by norm_num) (by norm_num)

/-- Concrete memory for exercising `GetStringValueFromPointer`: a 1024-byte
memory whose 8-byte return area at 16 holds the little-endian pair
(strPtr = 100, strLen = 5); the string bytes at 100..104 are zeros. -/
def c9Mem : Mem := writeBytes (fun _ => 0) 16 (encodeLE32 100 ++ encodeLE32 5)

/-- C9: on a successful `GetStringValueFromPointer` call the only guest
deallocation performed is of the string buffer `(100, 5)` — the 8-byte
return area at 16 is never passed to the deallocator, although the
function's own documentation says the return area is freed; and the
early-error exit (return area out of range) frees nothing at all.  This
contradicts the claim that both allocations are freed on every exit path. -/
theorem c9_return_area_never_freed :
    getStringValueFromPointer c9Mem 1024 16
      = .ok (.ok [0, 0, 0, 0, 0], [(100, 5)]) ∧
    [((100 : Nat), (5 : Nat))].contains (16, 8) = false ∧
    getStringValueFromPointer c9Mem 1024 1020
      = .ok (.error "cannot read return area", []) := by
  refine ⟨rfl, by decide, rfl⟩
